import Mathlib

/-!
Verification development for the NomadCast daemon core.

This file gives a shallow embedding, in Lean 4, of the parts of the
NomadCast repository that the claims of the specification are about:

* `nomadcastd/parsing.py`  — locator and media-URL parsing and validation;
* `nomadcastd/server.py`   — HTTP Range parsing and cached-media serving;
* `nomadcastd/daemon.py`   — backoff on failure, cache eviction, and the
  refresh job handler;
* `nomadcastd/rss.py`      — client-feed rewriting under `strict_cached`;
* `nomadcastd/storage.py`  — loading persisted per-show state.

Python strings are modelled as `List Char` (one entry per code point),
bytes payloads as `List Char` of their byte values, Python `int` as `Int`
(arbitrary precision in both languages), and fallible Python functions as
`Except`-valued Lean functions whose `.error` case stands for a raised
exception.  Pieces of the Python standard library that the code calls but
that are external to the repository are modelled as explicit parameters
(percent-decoding `unq`, percent-encoding `qt`, `str.isprintable` `pr`) or
as exact reimplementations where their behaviour is simple and fully
determined (regex `bytes=(\d*)-(\d*)` matching, `str.strip`, `str.split`,
decimal rendering for f-strings).
-/

set_option maxRecDepth 40000

namespace NomadCast

/-- Python strings (and byte strings) are lists of characters. -/
abbrev Str := List Char

/-- Test whether `pat` is an initial segment of `s`
(models Python `s.startswith(pat)`). -/
def hasLead : Str → Str → Bool
  | _, [] => true
  | [], _ :: _ => false
  | c :: s, p :: pat => c = p && hasLead s pat

/-- Model of Python `s.endswith(pat)`. -/
def hasTail (s pat : Str) : Bool :=
  hasLead s.reverse pat.reverse

/-- Model of Python `pat in s` (substring containment). -/
def hasSub : Str → Str → Bool
  | s, pat =>
    match s with
    | [] => hasLead [] pat
    | _ :: rest => hasLead s pat || hasSub rest pat

/-- Split helper: `splitSub s pat` splits `s` at the first occurrence of the substring
`pat`, returning the parts before and after it (models Python
`s.split(pat, 1)` when `pat` occurs in `s`). -/
def splitSub : Str → Str → Option (Str × Str)
  | s, pat =>
    if hasLead s pat then some ([], s.drop pat.length)
    else
      match s with
      | [] => none
      | c :: rest =>
        match splitSub rest pat with
        | some (a, b) => some (c :: a, b)
        | none => none

/-- Characters removed by Python `str.strip()` on ASCII input.  (Python
additionally strips some non-ASCII Unicode whitespace; every input
considered in this development is ASCII at the stripped ends.) -/
def pySpace (c : Char) : Bool :=
  c = ' ' || c = '\t' || c = '\n' || c = '\r' || c = '\x0b' || c = '\x0c'

/-- Python `s.strip()`. -/
def pyStrip (s : Str) : Str :=
  ((s.dropWhile pySpace).reverse.dropWhile pySpace).reverse

/-- Python `s.rstrip("/")`. -/
def rstripSlash (s : Str) : Str :=
  (s.reverse.dropWhile (fun c => c = '/')).reverse

/-- Hexadecimal characters, the class `[0-9a-fA-F]` of `DEST_HASH_RE`. -/
def isHexChar (c : Char) : Bool :=
  ('0' ≤ c && c ≤ '9') || ('a' ≤ c && c ≤ 'f') || ('A' ≤ c && c ≤ 'F')

/-- Model of `DEST_HASH_RE.match(s)` with `DEST_HASH_RE = ^[0-9a-fA-F]+$`: a
non-empty all-hex string matches; Python `$` also matches just before one
trailing newline. -/
def destHashReMatch (s : Str) : Bool :=
  let core := if s.getLast? = some '\n' then s.dropLast else s
  !core.isEmpty && core.all isHexChar

/-- Constant `NOMADCAST_PREFIX` from `parsing.py`. -/
def ncPre : Str := "nomadcast:".data

/-- Constant `NOMADCAST_URL_PREFIX` from `parsing.py`. -/
def ncUrlPre : Str := "nomadcast://".data

/-- Constant `MEDIA_PREFIX` from `parsing.py`. -/
def mediaSeg : Str := "/media/".data

/-- Constant `MIN_DEST_HASH_LEN` from `parsing.py`. -/
def minDestHashLen : Nat := 32

/-- The `Subscription` dataclass of `parsing.py`. -/
structure Subscription where
  uri : Str
  destinationHash : Str
  showName : Str
deriving DecidableEq, Repr

/-- Embedding of `_strip_nomadcast_prefix` from `parsing.py`. -/
def strip_nomadcast (value : Str) : Except String Str :=
  if hasLead value ncUrlPre then .ok (value.drop ncUrlPre.length)
  else if hasLead value ncPre then .ok (value.drop ncPre.length)
  else .error "NomadCast URL must start with nomadcast:"

/-- Embedding of `_validate_destination_show` from `parsing.py`. -/
def validate_destination_show (destinationHash showName : Str) : Except String Unit :=
  if destinationHash.length < minDestHashLen || !destHashReMatch destinationHash then
    .error "Destination hash must be hex and at least 32 characters"
  else if showName.isEmpty then .error "Show name is required"
  else .ok ()

/-- Python `body.split(":", 1)` for a `body` known to contain a colon:
the segment before the first colon, and everything after it. -/
def splitColon (body : Str) : Str × Str :=
  (body.takeWhile (fun c => c ≠ ':'), (body.dropWhile (fun c => c ≠ ':')).drop 1)

/-- Embedding of `parse_subscription_uri` from `parsing.py`. -/
def parse_subscription_uri (uri : Str) : Except String Subscription := do
  let body ← strip_nomadcast uri
  let body := if hasTail body "/rss".data then body.take (body.length - 4) else body
  if !hasSub body [':'] then
    throw "Subscription URI must include destination hash and show name"
  else if hasSub body mediaSeg then
    throw "Media URLs are not valid subscription locators"
  else
    let (destinationHash, showName) := splitColon body
    let _ ← validate_destination_show destinationHash showName
    return ⟨uri, destinationHash, showName⟩

/-- Embedding of `normalize_subscription_input` from `parsing.py`. -/
def normalize_subscription_input (rawInput : Str) : Except String Str :=
  let trimmed := pyStrip rawInput
  if trimmed.isEmpty then .error "Subscription locator cannot be empty"
  else
    let trimmed :=
      if hasLead trimmed ncUrlPre then ncPre ++ trimmed.drop ncUrlPre.length else trimmed
    if hasLead trimmed ncPre then
      if hasTail trimmed "/rss".data then .ok (trimmed.take (trimmed.length - 4))
      else if hasSub trimmed mediaSeg then
        .error "Media URLs are not valid subscription locators"
      else .ok (rstripSlash trimmed)
    else if !hasSub trimmed [':'] then
      .error "Locator must include destination hash and show name"
    else .ok (ncPre ++ trimmed)

/-- Embedding of `sanitize_filename` from `parsing.py`.  The parameter `pr` models the
Python built-in `str.isprintable` character classification, which is
Unicode-table driven and external to the repository. -/
def sanitize_filename (pr : Char → Bool) (filename : Str) : Bool :=
  if filename.isEmpty || filename.length > 255 then false
  else if hasSub filename ['/'] || hasSub filename ['\\'] || hasSub filename ['.', '.'] then false
  else if !filename.all pr then false
  else true

/-- Embedding of `parse_nomadcast_media_url` from `parsing.py`.  `unq` models
`urllib.parse.unquote` (percent-decoding, Python stdlib). -/
def parse_nomadcast_media_url (pr : Char → Bool) (unq : Str → Str) (url : Str) :
    Except String (Str × Str × Str) := do
  match splitSub url mediaSeg with
  | none => throw "Not a nomadcast media URL"
  | some (pre, rawFilename) =>
    let filename := unq rawFilename
    let body ← strip_nomadcast pre
    if !hasSub body [':'] then
      throw "Media URL must include destination hash and show name"
    else
      let (destinationHash, showName) := splitColon body
      let _ ← validate_destination_show destinationHash showName
      if !sanitize_filename pr filename then throw "Invalid filename"
      else return (destinationHash, showName, filename)

/-- UTF-8 encoded length in bytes of a string (used to state the claim
that filenames are limited to 255 bytes). -/
def utf8Len (s : Str) : Nat :=
  (s.map Char.utf8Size).sum

/-! ### HTTP Range handling (`nomadcastd/server.py`) -/

/-- ASCII decimal digits, the class `\d` of `RANGE_RE` (Python `\d` also
matches non-ASCII Unicode digits; HTTP headers are ASCII). -/
def isDigitChar (c : Char) : Bool :=
  '0' ≤ c && c ≤ '9'

/-- Numeric value of a digit string (Python `int` on a string of ASCII
digits, which cannot raise). -/
def digitsToNat (s : Str) : Nat :=
  s.foldl (fun a c => 10 * a + (c.toNat - 48)) 0

/-- Model of `RANGE_RE.match(s)` for `RANGE_RE = bytes=(\d*)-(\d*)`: `re.match`
anchors at the start only, `\d*` is greedy and cannot backtrack past the
literal `-`, and trailing characters are ignored.  Returns the two
captured digit groups. -/
def rangeReMatch (s : Str) : Option (Str × Str) :=
  if hasLead s "bytes=".data then
    let rest := s.drop 6
    let d1 := rest.takeWhile isDigitChar
    match rest.dropWhile isDigitChar with
    | '-' :: rest2 => some (d1, rest2.takeWhile isDigitChar)
    | _ => none
  else none

/-- Embedding of `_parse_range` from `server.py`. -/
def parse_range (rangeHeader : Str) (fileSize : Int) : Option (Int × Int) :=
  match rangeReMatch (pyStrip rangeHeader) with
  | none => none
  | some (startStr, endStr) =>
    if startStr.isEmpty && endStr.isEmpty then none
    else if startStr.isEmpty then
      let suffix : Int := digitsToNat endStr
      if suffix ≤ 0 then none
      else some (max (fileSize - suffix) 0, fileSize - 1)
    else
      let start : Int := digitsToNat startStr
      let endV : Int := if endStr.isEmpty then fileSize - 1 else (digitsToNat endStr : Int)
      if start ≥ fileSize || start < 0 then none
      else
        let endV := min endV (fileSize - 1)
        if endV < start then none else some (start, endV)

/-- Decimal digit character. -/
def digitChar (n : Nat) : Char := Char.ofNat (48 + n)

/-- Fuel-driven decimal rendering helper. -/
def natDecAux : Nat → Nat → Str
  | 0, _ => []
  | fuel + 1, n =>
    if n < 10 then [digitChar n] else natDecAux fuel (n / 10) ++ [digitChar (n % 10)]

/-- Decimal rendering of a natural number, as produced by a Python
f-string. -/
def natDec (n : Nat) : Str := natDecAux (n + 1) n

/-- Decimal rendering of a Python integer. -/
def intDec (i : Int) : Str :=
  if i < 0 then '-' :: natDec (-i).toNat else natDec i.toNat

/-- The parts of an HTTP response to a media request that the claims are
about: status code, `Content-Range` header if sent, `Content-Length`
header if sent, and the body bytes written. -/
structure MediaResponse where
  status : Nat
  contentRange : Option Str
  contentLength : Option Int
  body : Str
deriving DecidableEq, Repr

/-- The `Range`-handling tail of `NomadCastRequestHandler._handle_media`
(`server.py` lines 139-166), for a cached media file with contents
`content`.  `rangeHeader` is the value of the `Range` request header
(`none` when the header is absent; Python `if range_header:` also treats
an empty header value as absent). -/
def handle_media_cached (content : Str) (rangeHeader : Option Str) : MediaResponse :=
  let fileSize : Int := content.length
  let headerVal := match rangeHeader with
    | none => []
    | some h => h
  if headerVal.isEmpty then
    { status := 200, contentRange := none, contentLength := some fileSize, body := content }
  else
    match parse_range headerVal fileSize with
    | none =>
      { status := 416
        contentRange := some ("bytes */".data ++ intDec fileSize)
        contentLength := none
        body := [] }
    | some (s, e) =>
      { status := 206
        contentRange := some
          ("bytes ".data ++ intDec s ++ ['-'] ++ intDec e ++ ['/'] ++ intDec fileSize)
        contentLength := some (e - s + 1)
        body := (content.drop s.toNat).take (e - s + 1).toNat }

/-! ### Daemon: backoff, eviction, refresh (`nomadcastd/daemon.py`) -/

/-- The `CachedEpisode` dataclass of `storage.py`. -/
structure CachedEpisode where
  filename : Str
  order_index : Int
  size_bytes : Int
deriving DecidableEq, Repr

/-- The state mutation performed by `NomadCastDaemon._register_failure`:
given the configured `retry_backoff_seconds`, the current
`failure_count`, and the current time, it increments the failure count
and schedules `next_refresh_time = now + retry_backoff_seconds *
min(2 ** failure_count, 8)` with the incremented count. -/
def register_failure (retryBackoffSeconds : Int) (failureCount : Nat) (now : Int) :
    Nat × Int :=
  let fc := failureCount + 1
  (fc, now + retryBackoffSeconds * min ((2 : Int) ^ fc) 8)

/-- The backoff delay scheduled by the failure whose (already
incremented) failure count is `n + 1`. -/
def backoff_delay (retryBackoffSeconds : Int) (n : Nat) : Int :=
  retryBackoffSeconds * min ((2 : Int) ^ (n + 1)) 8

/-- Ordering used by the call
`sorted(cached, key=lambda item: item.order_index, reverse=True)` in
`_ensure_space_for`: `a` comes no later than `b` when the rank of `a` is
at least the rank of `b`. -/
@[reducible] def rankGE (a b : CachedEpisode) : Prop :=
  b.order_index ≤ a.order_index

instance : DecidableRel rankGE := fun _ _ => Int.decLe _ _

instance : IsTotal CachedEpisode rankGE :=
  ⟨fun a b => Int.le_total b.order_index a.order_index⟩

instance : IsTrans CachedEpisode rankGE :=
  ⟨fun _ _ _ h1 h2 => le_trans h2 h1⟩

/-- Result of the eviction routine: the running total after evictions,
the surviving `cached_episodes` list, and the episodes popped from the
eviction candidate list, in pop order. -/
structure EvictResult where
  total : Int
  cached : List CachedEpisode
  evicted : List CachedEpisode
deriving DecidableEq, Repr

/-- The `while evictable and total + new_size > max_bytes` loop of
`_ensure_space_for`.  `ex` models `path.exists()` for the file of an episode:
the total only shrinks when the file exists, but the entry is dropped
from state either way. -/
def evict_loop (maxBytes newSize : Int) (ex : Str → Bool) :
    List CachedEpisode → Int → List CachedEpisode → EvictResult
  | [], total, cached => ⟨total, cached, []⟩
  | oldest :: rest, total, cached =>
    if total + newSize > maxBytes then
      let total2 := if ex oldest.filename then total - oldest.size_bytes else total
      let cached2 := cached.filter (fun item => item.filename ≠ oldest.filename)
      let r := evict_loop maxBytes newSize ex rest total2 cached2
      ⟨r.total, r.cached, oldest :: r.evicted⟩
    else ⟨total, cached, []⟩

/-- Embedding of `NomadCastDaemon._ensure_space_for` as a pure function of the
configured `max_bytes_per_show`, the on-disk file-existence predicate
`ex`, the current `cached_episodes` list, and the incoming payload size.
Returns the boolean result together with the new `cached_episodes` list
and the evicted episodes in eviction order. -/
def ensure_space_for (maxBytes : Int) (ex : Str → Bool)
    (cached : List CachedEpisode) (newSize : Int) :
    Bool × List CachedEpisode × List CachedEpisode :=
  if maxBytes ≤ 0 then (true, cached, [])
  else
    let total := (cached.map CachedEpisode.size_bytes).sum
    if total + newSize ≤ maxBytes then (true, cached, [])
    else
      let evictable := List.insertionSort rankGE cached
      let r := evict_loop maxBytes newSize ex evictable total cached
      (decide (r.total + newSize ≤ maxBytes), r.cached, r.evicted)

/-- The control structure of `NomadCastDaemon._handle_refresh`
(`daemon.py` lines 431-503) as its indentation writes it.  The
fetch/persist/parse/state-update statements (lines 434-489) sit inside
the `try:`; the client-feed rebuild and mirroring statements (lines
490-500) are dedented to method level, outside the `try:`, yet the
`except Exception:` clause follows them — which CPython rejects with
`SyntaxError` (expected except/finally block) at line 490, so the
module cannot be imported at all.  Reading the indentation as written,
an exception in the rebuild/mirror tail is not routed to
`_register_failure`: `fetchPhase` is the outcome of the guarded part,
`rebuildPhase` the outcome of the unguarded tail.  The result is `.ok
(some msg)` when a failure was registered, `.ok none` on success, and
`.error e` when an exception escapes the handler. -/
def handle_refresh (fetchPhase : Except String Unit) (rebuildPhase : Except String Unit) :
    Except String (Option String) :=
  match fetchPhase with
  | .error e => .ok (some e)
  | .ok _ =>
    match rebuildPhase with
    | .error e => .error e
    | .ok _ => .ok none

/-! ### Client-feed rewriting (`nomadcastd/rss.py`) -/

/-- The `RssItem` produced by `parse_rss_items`, restricted to the fields
the rewrite logic reads: the enclosure URLs in document order and the
parsed `pubDate` timestamp, if any.  (XML parsing and reserialization are
Python-stdlib glue around this data.) -/
structure RssItem where
  enclosureUrls : List Str
  pubDate : Option Int
deriving DecidableEq, Repr

/-- Sort key of `_sorted_items`: the timestamp, items without a date
sorting as epoch 0. -/
def itemKey (i : RssItem) : Int :=
  i.pubDate.getD 0

/-- Ordering of `sorted(items, key=..., reverse=True)`. -/
@[reducible] def itemGE (a b : RssItem) : Prop :=
  itemKey b ≤ itemKey a

instance : DecidableRel itemGE := fun _ _ => Int.decLe _ _

/-- Embedding of `_sorted_items` from `rss.py`: stable descending sort by date when
any item has one, document order otherwise. -/
def sorted_items (items : List RssItem) : List RssItem :=
  if items.any (fun i => i.pubDate.isSome) then List.insertionSort itemGE items
  else items

/-- The scheme-media enclosures of an item: for each non-empty enclosure
URL that `parse_nomadcast_media_url` accepts, the extracted filename
(mirrors the `nomadcast_enclosures` collection loop of `rewrite_rss`). -/
def ncFilenames (pr : Char → Bool) (unq : Str → Str) (i : RssItem) : List Str :=
  i.enclosureUrls.filterMap (fun url =>
    if url.isEmpty then none
    else
      match parse_nomadcast_media_url pr unq url with
      | .ok (_, _, filename) => some filename
      | .error _ => none)

/-- The local enclosure URL
`http://{host}:{port}/media/{show_path}/{quote(filename)}` that
`rewrite_rss` substitutes; `qt` models `urllib.parse.quote(·, safe="")`. -/
def localMediaUrl (qt : Str → Str) (host : Str) (port : Nat) (showPath : Str)
    (filename : Str) : Str :=
  "http://".data ++ host ++ [':'] ++ natDec port ++ mediaSeg ++ showPath ++ ['/'] ++ qt filename

/-- The per-item URL rewriting of `rewrite_rss`: each enclosure URL that
parses as a scheme-media URL is replaced by the local media URL of its
filename; every other enclosure URL is left untouched. -/
def rewriteItem (pr : Char → Bool) (unq qt : Str → Str) (host : Str) (port : Nat)
    (showPath : Str) (i : RssItem) : List Str :=
  i.enclosureUrls.map (fun url =>
    if url.isEmpty then url
    else
      match parse_nomadcast_media_url pr unq url with
      | .ok (_, _, filename) => localMediaUrl qt host port showPath filename
      | .error _ => url)

/-- The item-selection loop of `rewrite_rss` over the already ordered
items: stop once `episodes_per_show` items were admitted; under
`strict_cached`, admit an item only when it has at least one scheme-media
enclosure and the filename of every such enclosure is cached.  Each admitted
item contributes its rewritten enclosure URL list. -/
def rewrite_items (pr : Char → Bool) (unq qt : Str → Str) (host : Str) (port : Nat)
    (showPath : Str) (cached : List Str) (episodesPerShow : Int) (strictCached : Bool) :
    Nat → List RssItem → List (List Str)
  | _, [] => []
  | count, i :: rest =>
    if (count : Int) ≥ episodesPerShow then []
    else
      let ncs := ncFilenames pr unq i
      let include0 :=
        if strictCached then decide (ncs ≠ []) && ncs.all (fun f => cached.contains f)
        else true
      if include0 then
        rewriteItem pr unq qt host port showPath i ::
          rewrite_items pr unq qt host port showPath cached episodesPerShow strictCached
            (count + 1) rest
      else
        rewrite_items pr unq qt host port showPath cached episodesPerShow strictCached
          count rest

/-- Embedding of `rewrite_rss` from `rss.py`, at the level of item enclosure lists:
order the parsed items, then run the selection/rewrite loop.  The output
is the list of rewritten enclosure URL lists of the admitted items (the XML
document reconstruction around it is Python-stdlib glue). -/
def rewrite_rss (pr : Char → Bool) (unq qt : Str → Str) (host : Str) (port : Nat)
    (showPath : Str) (cached : List Str) (episodesPerShow : Int) (strictCached : Bool)
    (items : List RssItem) : List (List Str) :=
  rewrite_items pr unq qt host port showPath cached episodesPerShow strictCached
    0 (sorted_items items)

/-! ### Persisted state loading (`nomadcastd/storage.py`) -/

/-- JSON values as returned by `json.loads`. -/
inductive Json where
  | null : Json
  | bool : Bool → Json
  | num : Int → Json
  | str : Str → Json
  | arr : List Json → Json
  | obj : List (Str × Json) → Json

/-- The exception classes that `ShowState.from_json` can raise on
ill-shaped input; `load_show_state` catches neither. -/
inductive PyErr where
  | attributeError : PyErr
  | typeError : PyErr
deriving DecidableEq, Repr

/-- Python `data.get(key, default)` on a dict produced by `json.loads`
(keys are unique). -/
def jGet (fields : List (Str × Json)) (key : Str) (dflt : Json) : Json :=
  match fields.find? (fun kv => kv.1 = key) with
  | some kv => kv.2
  | none => dflt

/-- Python truthiness of a JSON value (`if not state.subscription_uri`). -/
def pyFalsy : Json → Bool
  | .null => true
  | .bool b => !b
  | .num n => n = 0
  | .str s => s.isEmpty
  | .arr xs => xs.isEmpty
  | .obj fs => fs.isEmpty

/-- A `CachedEpisode` as deserialized by `CachedEpisode(**item)`: the
constructor accepts exactly the keys `filename`, `order_index`,
`size_bytes` (any values) and raises `TypeError` otherwise. -/
structure CachedEpisodeJson where
  filename : Json
  order_index : Json
  size_bytes : Json

/-- Model of `CachedEpisode(**item)` for one element of `cached_episodes`:
a `TypeError` unless `item` is a mapping with exactly the three expected
keys. -/
def cachedEpisodeFromJson : Json → Except PyErr CachedEpisodeJson
  | .obj fields =>
    let keys := fields.map Prod.fst
    if keys.contains "filename".data && keys.contains "order_index".data &&
        keys.contains "size_bytes".data &&
        keys.all (fun k =>
          k = "filename".data || k = "order_index".data || k = "size_bytes".data) then
      .ok ⟨jGet fields "filename".data .null, jGet fields "order_index".data .null,
        jGet fields "size_bytes".data .null⟩
    else .error .typeError
  | _ => .error .typeError

/-- A `ShowState` as held in memory, with the loosely typed fields
`from_json` produces (no type validation is performed on them). -/
structure ShowStateJson where
  subscription_uri : Json
  show_name : Json
  last_refresh : Json
  last_error : Json
  failure_count : Json
  cached_episodes : List CachedEpisodeJson

/-- The list comprehension
`[CachedEpisode(**item) for item in data.get("cached_episodes", [])]`:
iterating a list maps the constructor over it; iterating a non-empty
dict or string feeds the constructor keys/characters (`TypeError`);
iterating anything else raises `TypeError`; empty dicts and strings
iterate to nothing. -/
def episodesFromJson : Json → Except PyErr (List CachedEpisodeJson)
  | .arr xs => xs.mapM cachedEpisodeFromJson
  | .obj fs => if fs.isEmpty then .ok [] else .error .typeError
  | .str s => if s.isEmpty then .ok [] else .error .typeError
  | _ => .error .typeError

/-- Embedding of `ShowState.from_json` from `storage.py`: calling `.get` on a
non-dict raises `AttributeError`; field values are taken as-is with
defaults for missing keys. -/
def showStateFromJson : Json → Except PyErr ShowStateJson
  | .obj fields => do
    let eps ← episodesFromJson (jGet fields "cached_episodes".data (.arr []))
    return { subscription_uri := jGet fields "subscription_uri".data (.str [])
             show_name := jGet fields "show_name".data (.str [])
             last_refresh := jGet fields "last_refresh".data .null
             last_error := jGet fields "last_error".data .null
             failure_count := jGet fields "failure_count".data (.num 0)
             cached_episodes := eps }
  | _ => .error .attributeError

/-- The default `ShowState(subscription_uri=..., show_name=...)`. -/
def defaultShowState (subscriptionUri showName : Str) : ShowStateJson :=
  { subscription_uri := .str subscriptionUri
    show_name := .str showName
    last_refresh := .null
    last_error := .null
    failure_count := .num 0
    cached_episodes := [] }

/-- The observable outcome of reading and `json.loads`-ing the state
file: `none` when the file is absent, `some (.error ())` when the text is
not valid JSON (`json.JSONDecodeError`), `some (.ok v)` when it parses to
the JSON value `v`. -/
abbrev StateFile := Option (Except Unit Json)

/-- Embedding of `load_show_state` from `storage.py`.  Only `json.JSONDecodeError` is
caught; any exception raised by `ShowState.from_json` propagates
(`.error`).  On success the empty-string fields are replaced by the
supplied defaults. -/
def load_show_state (file : StateFile) (subscriptionUri showName : Str) :
    Except PyErr ShowStateJson :=
  match file with
  | none => .ok (defaultShowState subscriptionUri showName)
  | some (.error _) => .ok (defaultShowState subscriptionUri showName)
  | some (.ok data) =>
    match showStateFromJson data with
    | .error e => .error e
    | .ok st =>
      let st :=
        if pyFalsy st.subscription_uri then { st with subscription_uri := .str subscriptionUri }
        else st
      let st := if pyFalsy st.show_name then { st with show_name := .str showName } else st
      .ok st

/-! ### Concrete inputs used by the theorems below -/

/-- A 200-character filename consisting of euro signs (U+20AC, three
UTF-8 bytes each): 200 characters but 600 UTF-8 bytes. -/
def euro200 : Str := List.replicate 200 '€'

/-- Stated from the claim wording, for comparison with
`sanitize_filename` (which is translated from the source): acceptance of
a filename that is non-empty, at most 255 **bytes** long, free of path
separators and of the substring `..`, and printable. -/
def filename_rule_bytes (pr : Char → Bool) (f : Str) : Prop :=
  f ≠ [] ∧ utf8Len f ≤ 255 ∧ (¬ '/' ∈ f) ∧ (¬ '\\' ∈ f) ∧
    (¬ ∃ pre post, f = pre ++ '.' :: '.' :: post) ∧ ∀ c ∈ f, pr c = true

/-- Cached episode of rank 0 and size 4 from the eviction example. -/
def exampleEp0 : CachedEpisode := ⟨"f0".data, 0, 4⟩

/-- Cached episode of rank 1 and size 5 from the eviction example. -/
def exampleEp1 : CachedEpisode := ⟨"f1".data, 1, 5⟩

/-- Cached episode of rank 2 and size 6 from the eviction example. -/
def exampleEp2 : CachedEpisode := ⟨"f2".data, 2, 6⟩

/-- The eviction example state: cached ranks `[0, 1, 2]` with sizes
`[4, 5, 6]`. -/
def exampleCached : List CachedEpisode := [exampleEp0, exampleEp1, exampleEp2]

/-- A destination hash made of 32 hex characters, used as witness
input. -/
def exampleHash : Str := List.replicate 32 'a'

/-- A publisher item whose single enclosure is the scheme-media URL of
`a.mp3` on the witness show. -/
def exampleItem : RssItem :=
  ⟨[ncPre ++ (exampleHash ++ ":Show/media/a.mp3".data)], none⟩

/-- The trailing-`/rss` trimming step that appears verbatim both in
`parse_subscription_uri` and in the scheme-prefixed branch of
`normalize_subscription_input`: drop a trailing `/rss` when present. -/
def rssTrim (s : Str) : Str :=
  if hasTail s "/rss".data then s.take (s.length - 4) else s

/-! ### Helper lemmas -/

/-- Characterization of `hasLead`: `pat` is a lead of `s` exactly when
`s` extends `pat`. -/
theorem hasLead_iff_exists : ∀ (s pat : Str), hasLead s pat = true ↔ ∃ t, s = pat ++ t
  | s, [] => by simp [hasLead]
  | [], p :: pat => by simp [hasLead]
  | c :: s, p :: pat => by
    simp only [hasLead, Bool.and_eq_true, decide_eq_true_eq, hasLead_iff_exists s pat,
      List.cons_append]
    constructor
    · rintro ⟨rfl, t, rfl⟩; exact ⟨t, rfl⟩
    · rintro ⟨t, h⟩
      injection h with h1 h2
      exact ⟨h1, t, h2⟩

/-- Characterization of `hasSub`: `pat` occurs in `s` exactly when `s`
splits around an occurrence of `pat`. -/
theorem hasSub_iff_exists (pat : Str) : ∀ s : Str,
    hasSub s pat = true ↔ ∃ pre post, s = pre ++ pat ++ post
  | [] => by
    unfold hasSub
    rw [hasLead_iff_exists]
    constructor
    · rintro ⟨t, ht⟩
      exact ⟨[], t, ht⟩
    · rintro ⟨pre, post, h⟩
      rcases pre with _ | ⟨a, pre⟩
      · exact ⟨post, h⟩
      · cases h
  | c :: rest => by
    unfold hasSub
    rw [Bool.or_eq_true, hasLead_iff_exists, hasSub_iff_exists pat rest]
    constructor
    · rintro (⟨t, ht⟩ | ⟨pre, post, h⟩)
      · exact ⟨[], t, ht⟩
      · exact ⟨c :: pre, post, by simp [h]⟩
    · rintro ⟨pre, post, h⟩
      rcases pre with _ | ⟨a, pre⟩
      · exact Or.inl ⟨post, h⟩
      · injection h with h1 h2
        exact Or.inr ⟨pre, post, h2⟩

/-- Membership as a split around the element. -/
theorem mem_iff_exists_append {c : Char} {s : Str} :
    c ∈ s ↔ ∃ pre post, s = pre ++ c :: post := by
  constructor
  · intro h
    obtain ⟨pre, post, rfl⟩ := List.append_of_mem h
    exact ⟨pre, post, rfl⟩
  · rintro ⟨pre, post, rfl⟩
    simp

/-- Containment of a one-character pattern is membership. -/
theorem hasSub_single_iff_mem (c : Char) (s : Str) : hasSub s [c] = true ↔ c ∈ s := by
  rw [hasSub_iff_exists, mem_iff_exists_append]
  constructor
  · rintro ⟨pre, post, h⟩
    exact ⟨pre, post, by simpa using h⟩
  · rintro ⟨pre, post, rfl⟩
    exact ⟨pre, post, by simp⟩

/-- Monadic bind on a successful `Except` computation reduces. -/
theorem bind_ok_except {ε : Type} {α β : Type} (a : α) (f : α → Except ε β) :
    (Except.ok a : Except ε α) >>= f = f a := rfl

/-- Lead test is invariant under removing a common lead. -/
theorem hasLead_append_cancel : ∀ (a s pat : Str), hasLead (a ++ s) (a ++ pat) = hasLead s pat
  | [], _, _ => rfl
  | c :: a, s, pat => by simp [hasLead, hasLead_append_cancel a s pat]

/-- An empty pattern is a lead of anything. -/
theorem hasLead_nil_pat : ∀ s : Str, hasLead s [] = true
  | [] => rfl
  | _ :: _ => rfl

/-- Every list leads with each of its initial segments. -/
theorem hasLead_append_self (a s : Str) : hasLead (a ++ s) a = true := by
  have h := hasLead_append_cancel a s []
  rw [List.append_nil] at h
  rw [h]
  exact hasLead_nil_pat s

/-- A lead test fails when the first characters differ. -/
theorem hasLead_cons_ne {c p : Char} (h : c ≠ p) (s pat : Str) :
    hasLead (c :: s) (p :: pat) = false := by
  simp [hasLead, h]

/-- A hex character is distinct from any character that is not hex. -/
theorem isHexChar_ne {c : Char} (h : isHexChar c = true) (d : Char)
    (hd : isHexChar d = false) : c ≠ d := by
  intro he
  subst he
  rw [h] at hd
  exact Bool.noConfusion hd

/-- Hex characters are not stripped by `str.strip()`. -/
theorem pySpace_eq_false_of_hex {c : Char} (h : isHexChar c = true) : pySpace c = false := by
  cases hsp : pySpace c
  · rfl
  · exfalso
    simp only [pySpace, Bool.or_eq_true, decide_eq_true_eq] at hsp
    rcases hsp with ((((rfl | rfl) | rfl) | rfl) | rfl) | rfl <;> exact absurd h (by decide)

/-- Dropping while a predicate holds is the identity when the head
already fails the predicate. -/
theorem dropWhile_eq_self_of_head {p : Char → Bool} :
    ∀ {s : Str}, (∀ c, s.head? = some c → p c = false) → s.dropWhile p = s
  | [], _ => rfl
  | a :: t, h => by
    rw [List.dropWhile_cons, if_neg]
    rw [h a rfl]
    exact Bool.false_ne_true

/-- Python `str.strip()` is the identity when neither end is
whitespace. -/
theorem pyStrip_eq_self {s : Str} (hhead : ∀ c, s.head? = some c → pySpace c = false)
    (hlast : ∀ c, s.getLast? = some c → pySpace c = false) : pyStrip s = s := by
  unfold pyStrip
  rw [dropWhile_eq_self_of_head hhead]
  have h2 : s.reverse.dropWhile pySpace = s.reverse := by
    apply dropWhile_eq_self_of_head
    intro c hc
    rw [List.head?_reverse] at hc
    exact hlast c hc
  rw [h2, List.reverse_reverse]

/-- Splitting a list around a marker character that occurs nowhere
earlier. -/
theorem takeWhile_dropWhile_append {p : Char → Bool} :
    ∀ (a : Str) (b : Char) (t : Str), (∀ c ∈ a, p c = true) → p b = false →
      (a ++ b :: t).takeWhile p = a ∧ (a ++ b :: t).dropWhile p = b :: t
  | [], b, t, _, hb => by
    simp [List.takeWhile_cons, List.dropWhile_cons, hb]
  | c :: a, b, t, ha, hb => by
    have hc : p c = true := ha c (List.mem_cons_self c a)
    have ih := takeWhile_dropWhile_append a b t (fun x hx => ha x (List.mem_cons_of_mem c hx)) hb
    simp [List.takeWhile_cons, List.dropWhile_cons, hc, ih.1, ih.2]

/-- Python `split(":", 1)` on `hash ++ ":" ++ name` recovers the two
halves when the hash contains no colon. -/
theorem splitColon_append {hash name : Str} (hh : ∀ c ∈ hash, c ≠ ':') :
    splitColon (hash ++ ':' :: name) = (hash, name) := by
  unfold splitColon
  have h := takeWhile_dropWhile_append (p := fun c => decide (c ≠ ':')) hash ':' name
    (fun c hc => by simpa using hh c hc) (by simp)
  rw [h.1, h.2]
  rfl

/-- A non-empty all-hex string matches `DEST_HASH_RE`. -/
theorem destHashReMatch_of_hex {hash : Str} (hne : hash ≠ [])
    (hhex : hash.all isHexChar = true) : destHashReMatch hash = true := by
  unfold destHashReMatch
  have hlast : ¬ hash.getLast? = some '\n' := by
    intro hl
    have hmem : '\n' ∈ hash := List.mem_of_mem_getLast? (by rw [hl]; rfl)
    have := List.all_eq_true.mp hhex '\n' hmem
    exact absurd this (by decide)
  have hempty : hash.isEmpty = false := by
    cases hash with
    | nil => exact absurd rfl hne
    | cons a t => rfl
  rw [if_neg hlast]
  simp [hempty, hhex]

/-- Characterization of `hasTail`: `pat` is a tail of `s` exactly when
`s` splits as something followed by `pat`. -/
theorem hasTail_iff_exists (s pat : Str) : hasTail s pat = true ↔ ∃ t, s = t ++ pat := by
  unfold hasTail
  rw [hasLead_iff_exists]
  constructor
  · rintro ⟨t, ht⟩
    refine ⟨t.reverse, ?_⟩
    have h2 := congrArg List.reverse ht
    simpa [List.reverse_append] using h2
  · rintro ⟨t, rfl⟩
    exact ⟨t.reverse, by simp [List.reverse_append]⟩

/-- A lead test cannot look past a character that occurs nowhere in the
pattern. -/
theorem hasLead_append_stop (c : Char) (t : Str) :
    ∀ (nr pat : Str), c ∉ pat → hasLead (nr ++ c :: t) pat = hasLead nr pat
  | nr, [], _ => by rw [hasLead_nil_pat, hasLead_nil_pat]
  | [], p :: pat, hc => by
    have hne : c ≠ p := fun h => hc (h ▸ List.mem_cons_self p pat)
    rw [List.nil_append, hasLead_cons_ne hne t pat]
    rfl
  | a :: nr, p :: pat, hc => by
    rw [List.cons_append]
    show (decide (a = p) && hasLead (nr ++ c :: t) pat) = (decide (a = p) && hasLead nr pat)
    rw [hasLead_append_stop c t nr pat (fun h => hc (List.mem_cons_of_mem p h))]

/-- A trailing `/rss` of `g ++ ":" ++ name` can only come from `name`:
the colon separator stops the match (`:` does not occur in `/rss`). -/
theorem hasTail_append_colon (g name : Str) :
    hasTail (g ++ ':' :: name) "/rss".data = hasTail name "/rss".data := by
  unfold hasTail
  rw [show (g ++ ':' :: name).reverse = name.reverse ++ ':' :: g.reverse by
    simp [List.reverse_append]]
  rw [show ("/rss".data).reverse = ['s', 's', 'r', '/'] from rfl]
  exact hasLead_append_stop ':' g.reverse name.reverse ['s', 's', 'r', '/'] (by decide)

/-- Substring containment is preserved by appending on the right. -/
theorem hasSub_append_left_mono {a pat : Str} (b : Str) (h : hasSub a pat = true) :
    hasSub (a ++ b) pat = true := by
  obtain ⟨pre, post, rfl⟩ := (hasSub_iff_exists pat a).mp h
  exact (hasSub_iff_exists pat _).mpr ⟨pre, post ++ b, by simp⟩

/-- A substring occurrence in `a ++ s` whose first character occurs
nowhere in `a` lies entirely inside `s`. -/
theorem hasSub_of_append_not_head {a s pat : Str} {p0 : Char} {pt : Str}
    (hpat : pat = p0 :: pt) (hp0 : p0 ∉ a) (h : hasSub (a ++ s) pat = true) :
    hasSub s pat = true := by
  obtain ⟨pre, post, heq⟩ := (hasSub_iff_exists pat _).mp h
  rw [List.append_assoc] at heq
  rcases List.append_eq_append_iff.mp heq with ⟨e, he1, he2⟩ | ⟨e, he1, he2⟩
  · refine (hasSub_iff_exists pat s).mpr ⟨e, post, ?_⟩
    rw [he2, List.append_assoc]
  · rcases e with _ | ⟨c, e2⟩
    · refine (hasSub_iff_exists pat s).mpr ⟨[], post, ?_⟩
      rw [List.nil_append] at he2
      rw [List.nil_append]
      exact he2.symm
    · exfalso
      rw [hpat] at he2
      simp only [List.cons_append] at he2
      injection he2 with h1 h2
      refine hp0 ?_
      rw [h1, he1]
      simp

/-- Taking everything but the last four characters of `a ++ "/rss"`
recovers `a`. -/
theorem take_append_rss (a : Str) :
    (a ++ "/rss".data).take ((a ++ "/rss".data).length - 4) = a := by
  rw [List.length_append, show ("/rss".data).length = 4 from rfl, Nat.add_sub_cancel]
  exact List.take_left a _

/-- Trimming a present trailing `/rss`. -/
theorem rssTrim_append (a : Str) : rssTrim (a ++ "/rss".data) = a := by
  unfold rssTrim
  rw [if_pos ((hasTail_iff_exists _ _).mpr ⟨a, rfl⟩)]
  exact take_append_rss a

/-- Trimming is the identity without a trailing `/rss`. -/
theorem rssTrim_eq_self {s : Str} (h : hasTail s "/rss".data = false) : rssTrim s = s := by
  unfold rssTrim
  rw [h]
  rfl

/-- Python `rstrip("/")` is the identity when the last character is not
a slash. -/
theorem rstripSlash_eq_self {s : Str} (h : ∀ c, s.getLast? = some c → c ≠ '/') :
    rstripSlash s = s := by
  unfold rstripSlash
  have h2 : s.reverse.dropWhile (fun c => decide (c = '/')) = s.reverse := by
    apply dropWhile_eq_self_of_head
    intro c hc
    rw [List.head?_reverse] at hc
    simp [h c hc]
  rw [h2, List.reverse_reverse]

/-- A list that does not end in `/` has no slash as last character. -/
theorem getLast_not_slash {name : Str} (hslash : hasTail name ['/'] = false) :
    ∀ c, name.getLast? = some c → c ≠ '/' := by
  intro c hc hcc
  subst hcc
  have h1 : name.reverse.head? = some '/' := by
    rw [List.head?_reverse]
    exact hc
  obtain ⟨t, ht⟩ : ∃ t, name.reverse = '/' :: t := by
    cases hr : name.reverse with
    | nil => rw [hr] at h1; cases h1
    | cons a t =>
      rw [hr] at h1
      injection h1 with h1
      exact ⟨t, by rw [h1]⟩
  unfold hasTail at hslash
  rw [show ((['/'] : Str)).reverse = ['/'] from rfl, ht] at hslash
  have : hasLead ('/' :: t) ['/'] = true := by
    show (decide ('/' = '/') && hasLead t []) = true
    rw [hasLead_nil_pat]
    rfl
  rw [this] at hslash
  cases hslash

/-- Stripping the `nomadcast:` scheme from a URI built by prefixing it,
provided the remainder does not begin with `//`. -/
theorem strip_nomadcast_ncPre {y : Str} (hy : hasLead y ['/', '/'] = false) :
    strip_nomadcast (ncPre ++ y) = .ok y := by
  unfold strip_nomadcast
  have hcancel := hasLead_append_cancel ncPre y ['/', '/']
  have h1 : hasLead (ncPre ++ y) ncUrlPre = false := by
    rw [show ncUrlPre = ncPre ++ ['/', '/'] from rfl, hcancel, hy]
  have h2 := hasLead_append_self ncPre y
  rw [h1, h2]
  simp only [Bool.false_eq_true, if_false, if_true]
  rw [List.drop_left]

/-- Acceptance of a prefixed locator: when the embedded hash is valid,
`/media/` is absent, and the show name that survives the `/rss` trim is
non-empty, `parse_subscription_uri` succeeds on `nomadcast:hash:name`,
with the trimmed name as show name. -/
theorem parse_ncPre_ok (hash name : Str) (hhex : hash.all isHexChar = true)
    (hlen : 32 ≤ hash.length)
    (hmedia : hasSub (hash ++ ':' :: name) mediaSeg = false)
    (hname : rssTrim name ≠ []) :
    parse_subscription_uri (ncPre ++ (hash ++ ':' :: name)) =
      .ok ⟨ncPre ++ (hash ++ ':' :: name), hash, rssTrim name⟩ := by
  obtain ⟨h0, hr, rfl⟩ : ∃ h0 hr, hash = h0 :: hr := by
    cases hash with
    | nil => simp at hlen
    | cons a t => exact ⟨a, t, rfl⟩
  have hh0 : isHexChar h0 = true := List.all_eq_true.mp hhex h0 (List.mem_cons_self h0 hr)
  have hstrip2 : strip_nomadcast (ncPre ++ ((h0 :: hr) ++ ':' :: name)) =
      .ok ((h0 :: hr) ++ ':' :: name) := by
    apply strip_nomadcast_ncPre
    rw [List.cons_append]
    exact hasLead_cons_ne (isHexChar_ne hh0 '/' (by decide)) _ _
  have hh : ∀ c ∈ h0 :: hr, c ≠ ':' := fun c hc =>
    isHexChar_ne (List.all_eq_true.mp hhex c hc) ':' (by decide)
  have hd : destHashReMatch (h0 :: hr) = true := destHashReMatch_of_hex (by simp) hhex
  have hlt : ¬ (h0 :: hr).length < minDestHashLen := Nat.not_lt.mpr hlen
  unfold parse_subscription_uri
  rw [hstrip2]
  cases htail0 : hasTail name "/rss".data with
  | false =>
    have htailb : hasTail ((h0 :: hr) ++ ':' :: name) ['/', 'r', 's', 's'] = false := by
      show hasTail _ "/rss".data = false
      rw [hasTail_append_colon]
      exact htail0
    have hcolon2 : hasSub ((h0 :: hr) ++ ':' :: name) [':'] = true :=
      (hasSub_single_iff_mem ':' _).mpr (by simp)
    have hsplit : splitColon ((h0 :: hr) ++ ':' :: name) = (h0 :: hr, name) :=
      splitColon_append hh
    have hrt : rssTrim name = name := rssTrim_eq_self htail0
    have hne2 : name.isEmpty = false := by
      cases name with
      | nil => exact absurd hrt hname
      | cons a t => rfl
    have hvalid : validate_destination_show (h0 :: hr) name = .ok () := by
      unfold validate_destination_show
      have hlen2 : minDestHashLen ≤ hr.length + 1 := by
        simpa [minDestHashLen, List.length_cons] using hlen
      simp [hd, hne2, hlen2]
    simp only [bind_ok_except, htailb, Bool.false_eq_true, if_false, hcolon2, hmedia,
      hsplit, hvalid, Bool.not_true]
    rw [hrt]
    rfl
  | true =>
    obtain ⟨t2, rfl⟩ := (hasTail_iff_exists name "/rss".data).mp htail0
    have hbody : (h0 :: hr) ++ ':' :: (t2 ++ "/rss".data) =
        ((h0 :: hr) ++ ':' :: t2) ++ "/rss".data := by simp
    have hrt : rssTrim (t2 ++ "/rss".data) = t2 := rssTrim_append t2
    have htailb : hasTail ((h0 :: hr) ++ ':' :: (t2 ++ "/rss".data)) ['/', 'r', 's', 's'] =
        true := by
      show hasTail _ "/rss".data = true
      rw [hasTail_append_colon]
      exact htail0
    have htake : ((h0 :: hr) ++ ':' :: (t2 ++ "/rss".data)).take
        (((h0 :: hr) ++ ':' :: (t2 ++ "/rss".data)).length - 4) =
        (h0 :: hr) ++ ':' :: t2 := by
      rw [hbody]
      exact take_append_rss _
    have hcolon2 : hasSub ((h0 :: hr) ++ ':' :: t2) [':'] = true :=
      (hasSub_single_iff_mem ':' _).mpr (by simp)
    have hmedia2 : hasSub ((h0 :: hr) ++ ':' :: t2) mediaSeg = false := by
      cases hms : hasSub ((h0 :: hr) ++ ':' :: t2) mediaSeg with
      | false => rfl
      | true =>
        exfalso
        have h3 := hasSub_append_left_mono "/rss".data hms
        rw [← hbody] at h3
        rw [h3] at hmedia
        cases hmedia
    have hsplit : splitColon ((h0 :: hr) ++ ':' :: t2) = (h0 :: hr, t2) :=
      splitColon_append hh
    have hne2 : t2.isEmpty = false := by
      cases t2 with
      | nil => rw [hrt] at hname; exact absurd rfl hname
      | cons a t => rfl
    have hvalid : validate_destination_show (h0 :: hr) t2 = .ok () := by
      unfold validate_destination_show
      have hlen2 : minDestHashLen ≤ hr.length + 1 := by
        simpa [minDestHashLen, List.length_cons] using hlen
      simp [hd, hne2, hlen2]
    simp only [bind_ok_except, htailb, if_true, htake, hcolon2, hmedia2, hsplit, hvalid,
      Bool.not_true, Bool.false_eq_true, if_false]
    rw [hrt]
    rfl

/-- Eviction-loop invariants: the popped episodes form an initial
segment of the candidate list, and every surviving episode comes from
the incoming cached list and shares no filename with any popped
episode. -/
theorem evict_loop_spec (maxB newSize : Int) (ex : Str → Bool) :
    ∀ (ev : List CachedEpisode) (total : Int) (cached : List CachedEpisode),
      (∃ suffix, ev = (evict_loop maxB newSize ex ev total cached).evicted ++ suffix) ∧
      (∀ f ∈ (evict_loop maxB newSize ex ev total cached).cached,
        f ∈ cached ∧ ∀ o ∈ (evict_loop maxB newSize ex ev total cached).evicted,
          f.filename ≠ o.filename)
  | [], total, cached => by
    refine ⟨⟨[], rfl⟩, ?_⟩
    intro f hf
    refine ⟨hf, ?_⟩
    intro o ho
    cases ho
  | oldest :: rest, total, cached => by
    have ih := evict_loop_spec maxB newSize ex rest
      (if ex oldest.filename then total - oldest.size_bytes else total)
      (cached.filter fun item => item.filename ≠ oldest.filename)
    simp only [evict_loop]
    by_cases hc : total + newSize > maxB
    · rw [if_pos hc]
      dsimp only
      constructor
      · obtain ⟨suffix, hsuf⟩ := ih.1
        exact ⟨suffix, by rw [List.cons_append, ← hsuf]⟩
      · intro f hf
        obtain ⟨hfc, hfe⟩ := ih.2 f hf
        rw [List.mem_filter] at hfc
        refine ⟨hfc.1, ?_⟩
        intro o ho
        rcases List.mem_cons.mp ho with rfl | ho2
        · simpa using hfc.2
        · exact hfe o ho2
    · rw [if_neg hc]
      refine ⟨⟨oldest :: rest, rfl⟩, ?_⟩
      intro f hf
      refine ⟨hf, ?_⟩
      intro o ho
      cases ho

/-- Membership in the ordered item list is membership in the input. -/
theorem mem_sorted_items {i : RssItem} {items : List RssItem} :
    i ∈ sorted_items items ↔ i ∈ items := by
  unfold sorted_items
  split
  · exact List.mem_insertionSort itemGE
  · exact Iff.rfl

/-- Unfolding equation of the selection loop under `strict_cached` at a
cons cell. -/
theorem rewrite_items_cons_true (pr : Char → Bool) (unq qt : Str → Str) (host : Str)
    (port : Nat) (showPath : Str) (cached : List Str) (epS : Int) (count : Nat)
    (i : RssItem) (rest : List RssItem) :
    rewrite_items pr unq qt host port showPath cached epS true count (i :: rest) =
      if (count : Int) ≥ epS then []
      else
        if decide (ncFilenames pr unq i ≠ []) &&
            (ncFilenames pr unq i).all (fun f => cached.contains f) then
          rewriteItem pr unq qt host port showPath i ::
            rewrite_items pr unq qt host port showPath cached epS true (count + 1) rest
        else rewrite_items pr unq qt host port showPath cached epS true count rest := rfl

/-- Every URL of a rewritten item is either the local media URL built
from one of the scheme-media filenames of the item, or one of the
original enclosure URLs. -/
theorem rewriteItem_urls (pr : Char → Bool) (unq qt : Str → Str) (host : Str) (port : Nat)
    (showPath : Str) (i : RssItem) :
    ∀ u ∈ rewriteItem pr unq qt host port showPath i,
      (∃ f, f ∈ ncFilenames pr unq i ∧ u = localMediaUrl qt host port showPath f) ∨
        u ∈ i.enclosureUrls := by
  intro u hu
  unfold rewriteItem at hu
  obtain ⟨u0, hu0, hmap⟩ := List.mem_map.mp hu
  by_cases hemp : u0.isEmpty = true
  · right
    rw [if_pos hemp] at hmap
    rw [← hmap]
    exact hu0
  · rw [if_neg hemp] at hmap
    cases hp : parse_nomadcast_media_url pr unq u0 with
    | error e =>
      right
      rw [hp] at hmap
      rw [← hmap]
      exact hu0
    | ok t =>
      obtain ⟨dh, sn, fn⟩ := t
      rw [hp] at hmap
      left
      refine ⟨fn, ?_, hmap.symm⟩
      unfold ncFilenames
      apply List.mem_filterMap.mpr
      exact ⟨u0, hu0, by rw [if_neg hemp, hp]⟩

/-- Selection-loop invariant under `strict_cached`: every emitted item
comes from an input item with at least one scheme-media enclosure, all
of whose scheme-media filenames are cached, and is its rewritten URL
list. -/
theorem rewrite_items_strict (pr : Char → Bool) (unq qt : Str → Str) (host : Str)
    (port : Nat) (showPath : Str) (cached : List Str) (epS : Int) :
    ∀ (items : List RssItem) (count : Nat) (out : List Str),
      out ∈ rewrite_items pr unq qt host port showPath cached epS true count items →
      ∃ i, i ∈ items ∧ out = rewriteItem pr unq qt host port showPath i ∧
        ncFilenames pr unq i ≠ [] ∧ ∀ f ∈ ncFilenames pr unq i, cached.contains f = true
  | [], _, out => by
    intro h
    cases h
  | i :: rest, count, out => by
    intro hout
    rw [rewrite_items_cons_true] at hout
    split at hout
    · cases hout
    · by_cases hinc :
        (decide (ncFilenames pr unq i ≠ []) &&
          (ncFilenames pr unq i).all (fun f => cached.contains f)) = true
      · rw [if_pos hinc] at hout
        simp only [Bool.and_eq_true, decide_eq_true_eq, List.all_eq_true] at hinc
        rcases List.mem_cons.mp hout with rfl | htail
        · exact ⟨i, List.mem_cons_self i rest, rfl, hinc.1, hinc.2⟩
        · obtain ⟨j, hj, hrest⟩ := rewrite_items_strict pr unq qt host port showPath
            cached epS rest (count + 1) out htail
          exact ⟨j, List.mem_cons_of_mem i hj, hrest⟩
      · rw [if_neg hinc] at hout
        obtain ⟨j, hj, hrest⟩ := rewrite_items_strict pr unq qt host port showPath
          cached epS rest count out hout
        exact ⟨j, List.mem_cons_of_mem i hj, hrest⟩

/-! ### The claims -/

/-- C1: the claim says every exception raised anywhere in the refresh
path — including rebuilding the client feed and mirroring — is caught at
the handler boundary and turned into a `register_failure` call.  In the
source, the statements that rebuild the client feed and mirror
(`daemon.py` lines 490-500) are dedented out of the `try:` block whose
`except Exception:` clause follows at line 501, so CPython refuses the
module with a `SyntaxError` at line 490 (the daemon, and its test suite,
cannot even be imported); reading the indentation as written, an
exception raised by the rebuild step escapes the handler. -/
theorem c1_refresh_exception_escapes :
    handle_refresh (.ok ()) (.error "disk full") = .error "disk full" := rfl

/-- C3: a registered failure increments the failure count and schedules
`now + retry_backoff_seconds * min(2 ** failure_count, 8)` computed with
the incremented count; across consecutive failures the delay is
monotonically non-decreasing and capped at `8 * retry_backoff_seconds`. -/
theorem c3_backoff (r now : Int) (n : Nat) (hr : 1 ≤ r) :
    register_failure r n now = (n + 1, now + backoff_delay r n) ∧
    backoff_delay r n ≤ backoff_delay r (n + 1) ∧
    backoff_delay r n ≤ 8 * r := by
  refine ⟨rfl, ?_, ?_⟩
  · unfold backoff_delay
    have h2 : (2 : Int) ^ (n + 1) ≤ 2 ^ (n + 1 + 1) :=
      pow_le_pow_right₀ (by norm_num) (Nat.le_succ (n + 1))
    exact mul_le_mul_of_nonneg_left (min_le_min h2 le_rfl) (by omega)
  · unfold backoff_delay
    calc r * min ((2 : Int) ^ (n + 1)) 8 ≤ r * 8 :=
          mul_le_mul_of_nonneg_left (min_le_right _ _) (by omega)
    _ = 8 * r := by ring

/-- C3 witness: the instantiation at `retry_backoff_seconds = 300`,
`failure_count = 0`, `now = 0`. -/
theorem c3_backoff_witness :
    register_failure 300 0 0 = (1, 0 + backoff_delay 300 0) ∧
    backoff_delay 300 0 ≤ backoff_delay 300 (0 + 1) ∧
    backoff_delay 300 0 ≤ 8 * 300 :=
  c3_backoff 300 0 0 (by norm_num)

/-- C2: eviction is strictly oldest-first by rank.  If the budget is
unlimited or the payload already fits, `ensure_space_for` succeeds
immediately with no eviction; otherwise the evicted episodes are taken
in order of decreasing `order_index`, and no surviving episode has a
rank strictly above any evicted one.  On cached ranks `[0, 1, 2]` with
sizes `[4, 5, 6]`, budget 10, and a request for 6 more bytes, rank 2 is
evicted first, then rank 1, and rank 0 survives. -/
theorem c2_eviction :
    (∀ (maxB newSize : Int) (ex : Str → Bool) (cached : List CachedEpisode),
      ((maxB ≤ 0 ∨ (cached.map CachedEpisode.size_bytes).sum + newSize ≤ maxB) →
        ensure_space_for maxB ex cached newSize = (true, cached, [])) ∧
      List.Sorted rankGE (ensure_space_for maxB ex cached newSize).2.2 ∧
      (∀ e ∈ (ensure_space_for maxB ex cached newSize).2.2,
        ∀ f ∈ (ensure_space_for maxB ex cached newSize).2.1,
          f.order_index ≤ e.order_index)) ∧
    ensure_space_for 10 (fun _ => true) exampleCached 6 =
      (true, [exampleEp0], [exampleEp2, exampleEp1]) := by
  constructor
  · intro maxB newSize ex cached
    by_cases h0 : maxB ≤ 0
    · refine ⟨fun _ => ?_, ?_, ?_⟩ <;> simp only [ensure_space_for, if_pos h0]
      · exact List.sorted_nil
      · intro e he
        cases he
    · by_cases hfit : (cached.map CachedEpisode.size_bytes).sum + newSize ≤ maxB
      · refine ⟨fun _ => ?_, ?_, ?_⟩ <;>
          simp only [ensure_space_for, if_neg h0, if_pos hfit]
        · exact List.sorted_nil
        · intro e he
          cases he
      · have hspec := evict_loop_spec maxB newSize ex (List.insertionSort rankGE cached)
          ((cached.map CachedEpisode.size_bytes).sum) cached
        obtain ⟨⟨suffix, hsuf⟩, hkept⟩ := hspec
        have hsorted : List.Sorted rankGE (List.insertionSort rankGE cached) :=
          List.sorted_insertionSort rankGE cached
        refine ⟨fun hcase => ?_, ?_, ?_⟩
        · rcases hcase with hneg | hok
          · exact absurd hneg h0
          · exact absurd hok hfit
        · simp only [ensure_space_for, if_neg h0, if_neg hfit]
          rw [hsuf] at hsorted
          exact (List.pairwise_append.mp hsorted).1
        · simp only [ensure_space_for, if_neg h0, if_neg hfit]
          intro e he f hf
          obtain ⟨hfc, hfe⟩ := hkept f hf
          have hfsort : f ∈ List.insertionSort rankGE cached :=
            (List.mem_insertionSort rankGE).mpr hfc
          rw [hsuf] at hfsort hsorted
          rcases List.mem_append.mp hfsort with hin | hout
          · exact absurd rfl (hfe f hin)
          · exact (List.pairwise_append.mp hsorted).2.2 e he f hout
  · decide

/-- C2 witness: the eviction example plus an immediate-success case,
both obtained from the theorem and direct evaluation. -/
theorem c2_eviction_witness :
    ensure_space_for 20 (fun _ => true) exampleCached 5 = (true, exampleCached, []) ∧
    ensure_space_for 10 (fun _ => true) exampleCached 6 =
      (true, [exampleEp0], [exampleEp2, exampleEp1]) :=
  ⟨(c2_eviction.1 20 5 (fun _ => true) exampleCached).1 (Or.inr (by decide)),
    c2_eviction.2⟩

/-- C5: on the cached 11-byte resource `hello world`, `Range: bytes=0-4`
yields `206` with body `hello` and `Content-Range: bytes 0-4/11`, and
`Range: bytes=100-200` yields `416` with `Content-Range: bytes */11`. -/
theorem c5_range_request_responses :
    handle_media_cached "hello world".data (some "bytes=0-4".data) =
      ⟨206, some "bytes 0-4/11".data, some 5, "hello".data⟩ ∧
    handle_media_cached "hello world".data (some "bytes=100-200".data) =
      ⟨416, some "bytes */11".data, none, []⟩ :=
  ⟨rfl, rfl⟩

/-- C6 counterexample: the claim says a malformed `Range` header (here
the entirely empty form `bytes=-`, which the claim itself lists as
malformed) is answered with a full `200` response; the code answers
`416` with `Content-Range: bytes */11`. -/
theorem c6_counterexample :
    parse_range "bytes=-".data 11 = none ∧
    handle_media_cached "hello world".data (some "bytes=-".data) =
      ⟨416, some "bytes */11".data, none, []⟩ ∧
    (416 : Nat) ≠ 200 :=
  ⟨rfl, rfl, by decide⟩

/-- C6 amended: a GET for a cached media file whose non-empty `Range`
header fails to parse (malformed, unsatisfiable, or entirely empty
`bytes=-`) is answered with `416` and `Content-Range: bytes */size`, not
with a full `200` response. -/
theorem c6_malformed_range_yields_416 (content : Str) (h : Str) (hne : h ≠ [])
    (hbad : parse_range h (content.length : Int) = none) :
    handle_media_cached content (some h) =
      ⟨416, some ("bytes */".data ++ intDec (content.length : Int)), none, []⟩ := by
  unfold handle_media_cached
  have hemp : h.isEmpty = false := by
    cases h with
    | nil => exact absurd rfl hne
    | cons a t => rfl
  simp only [hemp, Bool.false_eq_true, if_false, hbad]

/-- C6 witness: the amended statement applied at the concrete resource
`hello world` and header `bytes=-`. -/
theorem c6_malformed_range_yields_416_witness :
    handle_media_cached "hello world".data (some "bytes=-".data) =
      ⟨416, some ("bytes */".data ++ intDec ("hello world".data.length : Int)), none, []⟩ :=
  c6_malformed_range_yields_416 "hello world".data "bytes=-".data (by decide) (by decide)

/-- C7: the claim says `load_show_state` returns the default state
whenever the file content fails to parse as valid state, including
content that is valid JSON without the shape of a `ShowState`.  Absent
files and invalid JSON do produce the defaults, but only
`json.JSONDecodeError` is caught: the JSON array `[1, 2, 3]` reaches
`ShowState.from_json`, whose `data.get(...)` call on a list raises
`AttributeError`, which propagates to the caller. -/
theorem c7_load_state_raises_on_json_array :
    load_show_state (some (.ok (.arr [.num 1, .num 2, .num 3]))) "u".data "s".data =
      .error .attributeError ∧
    load_show_state none "u".data "s".data = .ok (defaultShowState "u".data "s".data) ∧
    load_show_state (some (.error ())) "u".data "s".data =
      .ok (defaultShowState "u".data "s".data) :=
  ⟨rfl, rfl, rfl⟩

/-- C9 counterexample: a filename of 200 euro signs is 200 characters
(accepted by `sanitize_filename`, with every character printable) but
600 UTF-8 bytes, so acceptance is not equivalent to the claimed
255-**byte** rule. -/
theorem c9_counterexample :
    ¬ (sanitize_filename (fun _ => true) euro200 = true ↔
        filename_rule_bytes (fun _ => true) euro200) := by
  intro hiff
  have hs : sanitize_filename (fun _ => true) euro200 = true := by decide
  have hb := (hiff.mp hs).2.1
  have h600 : utf8Len euro200 = 600 := by decide
  omega

/-- C8 counterexample: `normalize` accepts the bare input `ab:cd`
(yielding `nomadcast:ab:cd`) but `parse_subscription` rejects the
normalized form because the destination hash is shorter than 32
characters, so the round-trip claim fails. -/
theorem c8_counterexample :
    normalize_subscription_input "ab:cd".data = .ok "nomadcast:ab:cd".data ∧
    parse_subscription_uri "nomadcast:ab:cd".data =
      .error "Destination hash must be hex and at least 32 characters" ∧
    ¬ ∃ sub, parse_subscription_uri "nomadcast:ab:cd".data = .ok sub := by
  refine ⟨rfl, rfl, ?_⟩
  rintro ⟨sub, hsub⟩
  rw [show parse_subscription_uri "nomadcast:ab:cd".data =
      .error "Destination hash must be hex and at least 32 characters" from rfl] at hsub
  exact Except.noConfusion hsub

/-- C9 amended: the filename validation accepts a filename if and only
if it is non-empty, at most 255 **characters** long (Python `len` counts
code points, not bytes), contains no forward or backward slash, no `..`
substring, and only printable characters (`pr` stands for the Python
`str.isprintable` classification). -/
theorem c9_filename_rules (pr : Char → Bool) (f : Str) :
    sanitize_filename pr f = true ↔
      (f ≠ [] ∧ f.length ≤ 255 ∧ (¬ '/' ∈ f) ∧ (¬ '\\' ∈ f) ∧
        (¬ ∃ pre post, f = pre ++ '.' :: '.' :: post) ∧ ∀ c ∈ f, pr c = true) := by
  unfold sanitize_filename
  split_ifs with h1 h2 h3
  · simp only [Bool.false_eq_true, false_iff, not_and]
    intro hne hlen
    simp only [Bool.or_eq_true, List.isEmpty_iff, decide_eq_true_eq] at h1
    rcases h1 with he | hgt
    · exact absurd he hne
    · omega
  · simp only [Bool.false_eq_true, false_iff, not_and]
    intro hne hlen hsl hbs hdd
    simp only [Bool.or_eq_true] at h2
    rcases h2 with (hs | hb) | hd
    · exact absurd ((hasSub_single_iff_mem '/' f).mp hs) hsl
    · exact absurd ((hasSub_single_iff_mem '\\' f).mp hb) hbs
    · obtain ⟨pre, post, hsplit⟩ := (hasSub_iff_exists ['.', '.'] f).mp hd
      exact absurd ⟨pre, post, by simpa [List.append_assoc] using hsplit⟩ hdd
  · simp only [Bool.false_eq_true, false_iff, not_and]
    intro _ _ _ _ _ hall
    rw [Bool.not_eq_true'] at h3
    rw [List.all_eq_true.mpr hall] at h3
    cases h3
  · simp only [true_iff]
    simp only [Bool.or_eq_true, not_or, List.isEmpty_iff, decide_eq_true_eq] at h1 h2
    obtain ⟨hne, hlen⟩ := h1
    obtain ⟨⟨hs, hb⟩, hd⟩ := h2
    refine ⟨hne, by omega, ?_, ?_, ?_, ?_⟩
    · intro hmem
      exact hs ((hasSub_single_iff_mem '/' f).mpr hmem)
    · intro hmem
      exact hb ((hasSub_single_iff_mem '\\' f).mpr hmem)
    · rintro ⟨pre, post, rfl⟩
      exact hd ((hasSub_iff_exists ['.', '.'] _).mpr ⟨pre, post, by simp⟩)
    · refine List.all_eq_true.mp ?_
      rcases hA : f.all pr with _ | _
      · rw [hA] at h3
        simp at h3
      · rfl

/-- C8 amended: the round trip holds whenever the locator embedded in
the input is itself valid — which is all the counterexample forces,
since `normalize` validates neither the hash nor the name.  For every
destination hash of at least 32 hex characters and every show name that
does not end in whitespace, with no `/media/` segment present:
the bare `hash:name` form is canonicalized by prefixing the scheme and
parses, provided the name left after the single `/rss` trim performed
by `parse_subscription` is non-empty (so names with interior spaces and
names like `foo/rss` round-trip); and the `nomadcast:hash:name` and
`nomadcast://hash:name` forms normalize to one common URI that parses,
provided the name survives the up-to-two `/rss` trims performed by
`normalize` and `parse_subscription` and does not end in `/` (a
trailing `/` is removed by `normalize`, reducing to an instance of this
theorem with the stripped name). -/
theorem c8_normalize_parse_roundtrip (hash name : Str)
    (hhex : hash.all isHexChar = true) (hlen : 32 ≤ hash.length)
    (hlast : ∀ c, name.getLast? = some c → pySpace c = false)
    (hmedia : hasSub (hash ++ ':' :: name) mediaSeg = false) :
    (rssTrim name ≠ [] →
      normalize_subscription_input (hash ++ ':' :: name) =
        .ok (ncPre ++ (hash ++ ':' :: name)) ∧
      ∃ sub, parse_subscription_uri (ncPre ++ (hash ++ ':' :: name)) = .ok sub) ∧
    (rssTrim (rssTrim name) ≠ [] → hasTail name ['/'] = false →
      ∃ u, normalize_subscription_input (ncPre ++ (hash ++ ':' :: name)) = .ok u ∧
        normalize_subscription_input (ncUrlPre ++ (hash ++ ':' :: name)) = .ok u ∧
        ∃ sub, parse_subscription_uri u = .ok sub) := by
  obtain ⟨h0, hr, rfl⟩ : ∃ h0 hr, hash = h0 :: hr := by
    cases hash with
    | nil => simp at hlen
    | cons a t => exact ⟨a, t, rfl⟩
  have hh0 : isHexChar h0 = true :=
    List.all_eq_true.mp hhex h0 (List.mem_cons_self h0 hr)
  constructor
  · intro hB
    have hnamene : name ≠ [] := by
      intro h
      rw [h] at hB
      exact hB rfl
    have hgl : ((h0 :: hr) ++ ':' :: name).getLast? = name.getLast? := by
      rw [List.getLast?_append_of_ne_nil _ (by simp)]
      rw [show (':' :: name) = [':'] ++ name from rfl]
      rw [List.getLast?_append_of_ne_nil _ hnamene]
    have hcolon : hasSub ((h0 :: hr) ++ ':' :: name) [':'] = true :=
      (hasSub_single_iff_mem ':' _).mpr (by simp)
    have hstrip : pyStrip ((h0 :: hr) ++ ':' :: name) = (h0 :: hr) ++ ':' :: name := by
      apply pyStrip_eq_self
      · intro c hc
        rw [List.cons_append] at hc
        injection hc with hc
        rw [← hc]
        exact pySpace_eq_false_of_hex hh0
      · intro c hc
        rw [hgl] at hc
        exact hlast c hc
    have hnourl : hasLead ((h0 :: hr) ++ ':' :: name) ncUrlPre = false := by
      rw [List.cons_append, show ncUrlPre = 'n' :: "omadcast://".data from rfl]
      exact hasLead_cons_ne (isHexChar_ne hh0 'n' (by decide)) _ _
    have hnopre : hasLead ((h0 :: hr) ++ ':' :: name) ncPre = false := by
      rw [List.cons_append, show ncPre = 'n' :: "omadcast:".data from rfl]
      exact hasLead_cons_ne (isHexChar_ne hh0 'n' (by decide)) _ _
    have hnonempty : ((h0 :: hr) ++ ':' :: name).isEmpty = false := by
      rw [List.cons_append]
      rfl
    refine ⟨?_, ⟨_, parse_ncPre_ok (h0 :: hr) name hhex hlen hmedia hB⟩⟩
    unfold normalize_subscription_input
    rw [hstrip]
    simp only [hnonempty, hnourl, hnopre, hcolon, Bool.false_eq_true, Bool.not_true,
      if_false]
  · intro hN2 hslash
    have hnamene : name ≠ [] := by
      intro h
      rw [h] at hN2
      exact hN2 rfl
    have hgl : ((h0 :: hr) ++ ':' :: name).getLast? = name.getLast? := by
      rw [List.getLast?_append_of_ne_nil _ (by simp)]
      rw [show (':' :: name) = [':'] ++ name from rfl]
      rw [List.getLast?_append_of_ne_nil _ hnamene]
    have hstrip2q : pyStrip (ncPre ++ ((h0 :: hr) ++ ':' :: name)) =
        ncPre ++ ((h0 :: hr) ++ ':' :: name) := by
      apply pyStrip_eq_self
      · intro c hc
        rw [show ncPre ++ ((h0 :: hr) ++ ':' :: name) =
          'n' :: ("omadcast:".data ++ ((h0 :: hr) ++ ':' :: name)) from rfl] at hc
        injection hc with hc
        rw [← hc]
        decide
      · intro c hc
        rw [List.getLast?_append_of_ne_nil _ (by simp), hgl] at hc
        exact hlast c hc
    have hstrip3q : pyStrip (ncUrlPre ++ ((h0 :: hr) ++ ':' :: name)) =
        ncUrlPre ++ ((h0 :: hr) ++ ':' :: name) := by
      apply pyStrip_eq_self
      · intro c hc
        rw [show ncUrlPre ++ ((h0 :: hr) ++ ':' :: name) =
          'n' :: ("omadcast://".data ++ ((h0 :: hr) ++ ':' :: name)) from rfl] at hc
        injection hc with hc
        rw [← hc]
        decide
      · intro c hc
        rw [List.getLast?_append_of_ne_nil _ (by simp), hgl] at hc
        exact hlast c hc
    have hnourl2 : hasLead (ncPre ++ ((h0 :: hr) ++ ':' :: name)) ncUrlPre = false := by
      rw [show ncUrlPre = ncPre ++ ['/', '/'] from rfl,
        hasLead_append_cancel ncPre ((h0 :: hr) ++ ':' :: name) ['/', '/'],
        List.cons_append]
      exact hasLead_cons_ne (isHexChar_ne hh0 '/' (by decide)) _ _
    have hpre2 : hasLead (ncPre ++ ((h0 :: hr) ++ ':' :: name)) ncPre = true :=
      hasLead_append_self ncPre _
    have hemp2 : (ncPre ++ ((h0 :: hr) ++ ':' :: name)).isEmpty = false := rfl
    have hemp3 : (ncUrlPre ++ ((h0 :: hr) ++ ':' :: name)).isEmpty = false := rfl
    have hnorm_eq : normalize_subscription_input (ncUrlPre ++ ((h0 :: hr) ++ ':' :: name)) =
        normalize_subscription_input (ncPre ++ ((h0 :: hr) ++ ':' :: name)) := by
      unfold normalize_subscription_input
      rw [hstrip3q, hstrip2q]
      simp only [hemp2, hemp3, hasLead_append_self ncUrlPre _, hnourl2,
        Bool.false_eq_true, if_false, if_true, List.drop_left]
    cases htail0 : hasTail name "/rss".data with
    | true =>
      obtain ⟨t2, rfl⟩ := (hasTail_iff_exists name "/rss".data).mp htail0
      have hmov : ncPre ++ ((h0 :: hr) ++ ':' :: (t2 ++ "/rss".data)) =
          (ncPre ++ ((h0 :: hr) ++ ':' :: t2)) ++ "/rss".data := by simp
      have htailx : hasTail (ncPre ++ ((h0 :: hr) ++ ':' :: (t2 ++ "/rss".data)))
          "/rss".data = true := by
        rw [hmov]
        exact (hasTail_iff_exists _ _).mpr ⟨_, rfl⟩
      have htakex : (ncPre ++ ((h0 :: hr) ++ ':' :: (t2 ++ "/rss".data))).take
          ((ncPre ++ ((h0 :: hr) ++ ':' :: (t2 ++ "/rss".data))).length - 4) =
          ncPre ++ ((h0 :: hr) ++ ':' :: t2) := by
        rw [hmov]
        exact take_append_rss _
      have hx2eq : normalize_subscription_input
          (ncPre ++ ((h0 :: hr) ++ ':' :: (t2 ++ "/rss".data))) =
          .ok (ncPre ++ ((h0 :: hr) ++ ':' :: t2)) := by
        unfold normalize_subscription_input
        rw [hstrip2q]
        simp only [hemp2, hnourl2, hpre2, htailx, htakex, Bool.false_eq_true, if_false,
          if_true]
      have hrt : rssTrim (t2 ++ "/rss".data) = t2 := rssTrim_append t2
      have hN2t : rssTrim t2 ≠ [] := by
        rw [hrt] at hN2
        exact hN2
      have hmedia2 : hasSub ((h0 :: hr) ++ ':' :: t2) mediaSeg = false := by
        cases hms : hasSub ((h0 :: hr) ++ ':' :: t2) mediaSeg with
        | false => rfl
        | true =>
          exfalso
          have h3 := hasSub_append_left_mono "/rss".data hms
          rw [show ((h0 :: hr) ++ ':' :: t2) ++ "/rss".data =
            (h0 :: hr) ++ ':' :: (t2 ++ "/rss".data) by simp] at h3
          rw [h3] at hmedia
          cases hmedia
      exact ⟨ncPre ++ ((h0 :: hr) ++ ':' :: t2), hx2eq, hnorm_eq.trans hx2eq,
        _, parse_ncPre_ok (h0 :: hr) t2 hhex hlen hmedia2 hN2t⟩
    | false =>
      have htailx : hasTail (ncPre ++ ((h0 :: hr) ++ ':' :: name)) "/rss".data = false := by
        rw [show ncPre ++ ((h0 :: hr) ++ ':' :: name) =
          (ncPre ++ (h0 :: hr)) ++ ':' :: name by simp]
        rw [hasTail_append_colon]
        exact htail0
      have hmedx : hasSub (ncPre ++ ((h0 :: hr) ++ ':' :: name)) mediaSeg = false := by
        cases hms : hasSub (ncPre ++ ((h0 :: hr) ++ ':' :: name)) mediaSeg with
        | false => rfl
        | true =>
          exfalso
          have h3 := hasSub_of_append_not_head
            (show mediaSeg = '/' :: "media/".data from rfl) (by decide) hms
          rw [h3] at hmedia
          cases hmedia
      have hrstrip : rstripSlash (ncPre ++ ((h0 :: hr) ++ ':' :: name)) =
          ncPre ++ ((h0 :: hr) ++ ':' :: name) := by
        apply rstripSlash_eq_self
        intro c hc
        rw [List.getLast?_append_of_ne_nil _ (by simp), hgl] at hc
        exact getLast_not_slash hslash c hc
      have hx2eq : normalize_subscription_input (ncPre ++ ((h0 :: hr) ++ ':' :: name)) =
          .ok (ncPre ++ ((h0 :: hr) ++ ':' :: name)) := by
        unfold normalize_subscription_input
        rw [hstrip2q]
        simp only [hemp2, hnourl2, hpre2, htailx, hmedx, Bool.false_eq_true, if_false,
          if_true, hrstrip]
      have hrt : rssTrim name = name := rssTrim_eq_self htail0
      have hBn : rssTrim name ≠ [] := by
        rw [hrt] at hN2 ⊢
        rw [hrt] at hN2
        exact hN2
      exact ⟨ncPre ++ ((h0 :: hr) ++ ':' :: name), hx2eq, hnorm_eq.trans hx2eq,
        _, parse_ncPre_ok (h0 :: hr) name hhex hlen hmedia hBn⟩

/-- C8 witness: the bare, `nomadcast:`, and `nomadcast://` forms of the
locator with a 32-hex-character hash and the show name `BestShow`. -/
theorem c8_normalize_parse_roundtrip_witness :
    (normalize_subscription_input (exampleHash ++ ':' :: "BestShow".data) =
        .ok (ncPre ++ (exampleHash ++ ':' :: "BestShow".data)) ∧
      ∃ sub, parse_subscription_uri (ncPre ++ (exampleHash ++ ':' :: "BestShow".data)) =
        .ok sub) ∧
    (∃ u, normalize_subscription_input (ncPre ++ (exampleHash ++ ':' :: "BestShow".data)) =
        .ok u ∧
      normalize_subscription_input (ncUrlPre ++ (exampleHash ++ ':' :: "BestShow".data)) =
        .ok u ∧
      ∃ sub, parse_subscription_uri u = .ok sub) :=
  have h := c8_normalize_parse_roundtrip exampleHash "BestShow".data (by decide) (by decide)
    (by intro c hc; cases hc; decide) (by decide)
  ⟨h.1 (by decide), h.2 (by decide) (by decide)⟩

/-- C10: whenever the range parser returns a pair on a file of positive
size, the pair is an in-bounds inclusive byte range, so the `206`
handler reads a well-formed slice and the content length is positive. -/
theorem c10_parse_range_bounds (header : Str) (fileSize : Int) (hfs : 1 ≤ fileSize)
    (s e : Int) (h : parse_range header fileSize = some (s, e)) :
    0 ≤ s ∧ s ≤ e ∧ e ≤ fileSize - 1 := by
  unfold parse_range at h
  rcases hm : rangeReMatch (pyStrip header) with _ | ⟨d1, d2⟩ <;> rw [hm] at h
  · cases h
  · dsimp only at h
    by_cases h0 : (d1.isEmpty && d2.isEmpty) = true
    · rw [if_pos h0] at h; cases h
    · rw [if_neg h0] at h
      by_cases h1 : d1.isEmpty = true
      · rw [if_pos h1] at h
        by_cases h2 : (digitsToNat d2 : Int) ≤ 0
        · rw [if_pos h2] at h; cases h
        · rw [if_neg h2] at h
          simp only [Option.some.injEq, Prod.mk.injEq] at h
          obtain ⟨hs, he⟩ := h
          subst hs he
          refine ⟨le_max_right _ _, ?_, ?_⟩ <;> omega
      · rw [if_neg h1] at h
        by_cases hg :
            (decide ((digitsToNat d1 : Int) ≥ fileSize) || decide ((digitsToNat d1 : Int) < 0))
              = true
        · rw [if_pos hg] at h; cases h
        · rw [if_neg hg] at h
          simp only [Bool.or_eq_true, decide_eq_true_eq, not_or, not_le, not_lt] at hg
          by_cases hlt :
              min (if d2.isEmpty = true then fileSize - 1 else (digitsToNat d2 : Int))
                (fileSize - 1) < (digitsToNat d1 : Int)
          · rw [if_pos hlt] at h; cases h
          · rw [if_neg hlt] at h
            simp only [Option.some.injEq, Prod.mk.injEq] at h
            obtain ⟨hs, he⟩ := h
            subst hs he
            refine ⟨?_, ?_, ?_⟩ <;> omega

/-- C10 witness: the bounds at the concrete header `bytes=0-4` on an
11-byte file. -/
theorem c10_parse_range_bounds_witness :
    0 ≤ (0 : Int) ∧ (0 : Int) ≤ 4 ∧ (4 : Int) ≤ 11 - 1 :=
  c10_parse_range_bounds "bytes=0-4".data 11 (by norm_num) 0 4 (by decide)

end NomadCast
